import Mathlib

/-!
Shallow embedding of PREvant's host-meta cache/crawler
(src/api/src/apps/host_meta_cache.rs) and of the Docker infrastructure
adapter (src/api/src/services/docker/docker_infrastructure.rs), with
theorems settling the frozen claims about them.

Conventions of the embedding:
- timestamps and durations are integers (seconds);
- the evmap cache is a flat association list of (Key, Value) bindings
  (evmap maps a key to a bag of values; the crawler keeps at most one);
- a crawler cycle is a pure function that also returns, in order, the
  list of cache states made visible to readers by refresh calls;
- fallible runtime calls are modelled by explicit result types, and the
  side effects of stop_services by an explicit operation list.
-/

namespace PREvant

/-- Status of a service as reported by the runtime inventory
(models/service.rs, outside src/; only Running and Paused are relevant
to the embedded code). -/
inductive ServiceStatus
| running
| paused
deriving DecidableEq, Repr

/-- Modelled from the spec: ContainerType is the tagged variant
{Instance, ApplicationCompanion, ServiceCompanion, Linked}; the type
itself lives in models/service.rs, outside src/. -/
inductive ContainerType
| inst
| applicationCompanion
| serviceCompanion
| linked
deriving DecidableEq, Repr

/-- Modelled from the spec: WebHostMeta is consumed as an opaque value
with is_valid() / empty() / invalid() / with_base_url() capabilities
(its parser lives outside src/). The spec states that the crawler
inserts exactly the metas for which is_valid() holds and that empty and
invalid metas are not inserted, so the model makes is_valid true only
for a parsed document. -/
inductive WebHostMeta
| parsed (props : String) (base_url : Option String)
| empty
| invalid
deriving DecidableEq, Repr

/-- Modelled from the spec: is_valid() holds for a parsed document and
not for the empty() or invalid() values (section 4.5 step 6: insert
exactly when is_valid(); empty and invalid metas are not inserted). -/
def WebHostMeta.is_valid : WebHostMeta → Bool
| .parsed _ _ => true
| .empty => false
| .invalid => false

/-- Modelled from the spec: with_base_url attaches the given base url to
a parsed document and leaves empty() and invalid() unchanged. -/
def WebHostMeta.with_base_url : WebHostMeta → String → WebHostMeta
| .parsed p _, u => .parsed p (some u)
| .empty, _ => .empty
| .invalid, _ => .invalid

/-- Service identity record (models/service.rs, outside src/, as the
spec's section 3 describes it): identity fields plus the optional
base_url and web_host_meta that the cache read path fills in. -/
structure Service where
  app_name : String
  service_name : String
  id : String
  container_type : ContainerType
  status : ServiceStatus
  started_at : Int
  base_url : Option String
  web_host_meta : Option WebHostMeta
deriving DecidableEq, Repr

/-- Cache key, host_meta_cache.rs lines 52-55. -/
structure Key where
  app_name : String
  service_id : String
deriving DecidableEq, Repr

/-- Cache value, host_meta_cache.rs lines 58-61. -/
structure Value where
  timestamp : Int
  web_host_meta : WebHostMeta
deriving DecidableEq, Repr

/-- Request information; only the base url is consumed by the embedded
code. -/
structure RequestInfo where
  base_url : String
deriving DecidableEq, Repr

/-- Lookup in a multimap represented as an association list from a key
to the vector of its values (multimap::MultiMap::get_vec). -/
def mm_get_vec {β : Type} (m : List (String × List β)) (k : String) : Option (List β) :=
  (m.find? (fun p => decide (p.1 = k))).map Prod.snd

/-- Insertion into the multimap: append to the key's vector, or add a
new binding (multimap::MultiMap::insert). -/
def mm_insert {β : Type} (m : List (String × List β)) (k : String) (v : β) : List (String × List β) :=
  match m with
  | [] => [(k, [v])]
  | p :: rest => if p.1 = k then (p.1, p.2 ++ [v]) :: rest else p :: mm_insert rest k v

/-- The evmap cache as a flat list of (Key, Value) bindings; a key may
in general carry several values (evmap semantics). -/
abbrev Cache := List (Key × Value)

/-- evmap ReadHandle::get_one - the first value stored under the key. -/
def cache_get_one (c : Cache) (k : Key) : Option Value :=
  (c.find? (fun e => decide (e.1 = k))).map Prod.snd

/-- evmap WriteHandle::contains_key. -/
def cache_contains_key (c : Cache) (k : Key) : Bool :=
  c.any (fun e => decide (e.1 = k))

/-- Building a service for the decorated output:
ServiceBuilder::from(service).base_url(..) and, on a cache hit,
.web_host_meta(value.web_host_meta.with_base_url(..)); the loop body of
update_meta_data, host_meta_cache.rs lines 84-101. -/
def enrich_service (cache : Cache) (request_info : RequestInfo) (app_name : String) (s : Service) : Service :=
  let key : Key := ⟨app_name, s.id⟩
  let b : Service := { s with base_url := some request_info.base_url }
  match cache_get_one cache key with
  | some value =>
      { b with web_host_meta := some (value.web_host_meta.with_base_url request_info.base_url) }
  | none => b

/-- HostMetaCache::update_meta_data, host_meta_cache.rs lines 75-106:
iterate all (app_name, service) pairs of the input and insert the
enriched service under key.app_name (the key the pair was read from). -/
def update_meta_data (cache : Cache) (services : List (String × List Service)) (request_info : RequestInfo) : List (String × List Service) :=
  services.foldl
    (fun acc p =>
      p.2.foldl (fun acc2 s => mm_insert acc2 p.1 (enrich_service cache request_info p.1 s)) acc)
    []

/-- The per-entry staleness test of clear_stale_web_host_meta
(host_meta_cache.rs lines 195-210): no app under key.app_name, or no
service of that app with the key's id, or the found service is Paused
or was started after the value's timestamp. -/
def stale (apps : List (String × List Service)) (key : Key) (value : Value) : Bool :=
  match mm_get_vec apps key.app_name with
  | none => true
  | some services =>
    match services.find? (fun s => decide (s.id = key.service_id)) with
    | none => true
    | some s => decide (s.status = ServiceStatus.paused) || decide (value.timestamp < s.started_at)

/-- Keys collected for clearing, host_meta_cache.rs lines 192-212: the
keys of the cache entries whose (key, value) pair passes the staleness
filter. -/
def keys_to_clear (apps : List (String × List Service)) (cache : Cache) : List Key :=
  (cache.filter (fun e => stale apps e.1 e.2)).map Prod.fst

/-- HostMetaCrawler::clear_stale_web_host_meta, host_meta_cache.rs lines
187-224: if no key is stale, return (no refresh); otherwise empty every
collected key, removing all values stored under it. -/
def clear_stale_web_host_meta (apps : List (String × List Service)) (cache : Cache) : Cache :=
  let ks := keys_to_clear apps cache
  if ks.isEmpty then cache
  else cache.filter (fun e => decide (e.1 ∉ ks))

/-- All (Key, Service) pairs of the inventory whose key is not yet in
the cache, host_meta_cache.rs lines 133-148. -/
def crawl_targets (apps : List (String × List Service)) (cache : Cache) : List (Key × Service) :=
  (apps.flatMap (fun p => p.2.map (fun s => (Key.mk p.1 s.id, s)))).filter
    (fun e => !(cache_contains_key cache e.1))

/-- HostMetaCrawler::crawl, host_meta_cache.rs lines 123-185, as a pure
cycle function. The probe argument abstracts resolve_host_meta's
per-target outcome. The first component lists, in order, the cache
states made visible to readers by the refresh calls of the cycle
(one inside clear_stale_web_host_meta when at least one key is cleared,
one at the end of crawl unless the early return on empty targets is
taken); the second component is the final cache content. -/
def crawl (apps : List (String × List Service)) (cache : Cache) (probe : Key → Service → WebHostMeta) (now : Int) : List Cache × Cache :=
  let ks := keys_to_clear apps cache
  let cache1 := clear_stale_web_host_meta apps cache
  let pubs1 : List Cache := if ks.isEmpty then [] else [cache1]
  let targets := crawl_targets apps cache1
  if targets.isEmpty then (pubs1, cache1)
  else
    let results := targets.map (fun e => (e.1, e.2, probe e.1 e.2))
    let cache2 := results.foldl
      (fun c r => if r.2.2.is_valid then c ++ [(r.1, Value.mk now r.2.2)] else c) cache1
    (pubs1 ++ [cache2], cache2)

/-- Outcome of an HttpForwarder::request_web_host_meta call: parseable
body, unparseable body, or transport error. -/
inductive ProbeResponse
| ok (meta : Option WebHostMeta)
| err
deriving DecidableEq, Repr

/-- HostMetaCrawler::resolve_web_host_meta, host_meta_cache.rs lines
265-336, restricted to the classification of the response (the fixed
request construction carries no data relevant here). On a transport
error the service uptime now - started_at and the process uptime passed
in as duration_prevant_startup decide between empty and invalid. -/
def resolve_web_host_meta (response : ProbeResponse) (now started_at duration_prevant_startup : Int) : WebHostMeta :=
  match response with
  | .ok (some meta) => meta
  | .ok none => WebHostMeta.empty
  | .err =>
      if 5 * 60 ≤ now - started_at ∧ 1 * 60 ≤ duration_prevant_startup then WebHostMeta.empty
      else WebHostMeta.invalid

/-- Container descriptor as the docker adapter consumes it: the id and
the three identity labels of docker_infrastructure.rs lines 47-49 (an
absent label is none). -/
structure Container where
  id : String
  app_name_label : Option String
  service_name_label : Option String
  container_type_label : Option String
deriving DecidableEq, Repr

/-- Error taxonomy of the docker adapter, docker_infrastructure.rs
lines 53-71. -/
inductive DockerInfrastructureError
| imageNotFound (internal_message : String)
| missingServiceNameLabel (container_id : String)
| missingAppNameLabel (container_id : String)
| unexpectedError (internal_message : String)
| unknownServiceType (unknown_label : String)
deriving DecidableEq, Repr

/-- Modelled from the spec: the container-type label parser of
models/service.rs (outside src/) maps the lowercase-with-dashes variant
names to ContainerType and rejects any other label. -/
def parse_container_type (label : String) : Option ContainerType :=
  if label = "instance" then some ContainerType.inst
  else if label = "application-companion" then some ContainerType.applicationCompanion
  else if label = "service-companion" then some ContainerType.serviceCompanion
  else if label = "linked" then some ContainerType.linked
  else none

/-- Service::new as used by TryFrom<&Container>: identity fields from
the labels; status, started_at and the decoration fields take the
runtime defaults (a freshly listed container is running). -/
def service_new (app_name service_name id : String) (container_type : ContainerType) : Service :=
  { app_name := app_name
    service_name := service_name
    id := id
    container_type := container_type
    status := ServiceStatus.running
    started_at := 0
    base_url := none
    web_host_meta := none }

/-- TryFrom<&Container> for Service, docker_infrastructure.rs lines
469-503: missing service-name or app-name label is a hard error,
missing container-type label defaults to Instance, an unparseable
container-type label is an error. -/
def service_try_from (c : Container) : Except DockerInfrastructureError Service :=
  match c.service_name_label with
  | none => Except.error (DockerInfrastructureError.missingServiceNameLabel c.id)
  | some service_name =>
    match c.app_name_label with
    | none => Except.error (DockerInfrastructureError.missingAppNameLabel c.id)
    | some app_name =>
      match c.container_type_label with
      | none => Except.ok (service_new app_name service_name c.id ContainerType.inst)
      | some lb =>
        match parse_container_type lb with
        | none => Except.error (DockerInfrastructureError.unknownServiceType lb)
        | some ct => Except.ok (service_new app_name service_name c.id ct)

/-- DockerInfrastructure::get_services, docker_infrastructure.rs lines
306-331: list the containers carrying the app-name label, group the
reconstructable services under that label's value, skip containers
whose reconstruction fails. -/
def get_services (state : List Container) : List (String × List Service) :=
  state.foldl
    (fun apps c =>
      match c.app_name_label with
      | none => apps
      | some app_name =>
        match service_try_from c with
        | Except.ok service => mm_insert apps app_name service
        | Except.error _ => apps)
    []

/-- Side effects of stop_services against the runtime. -/
inductive DockerOp
| stopContainer (container_id : String)
| deleteContainer (container_id : String)
| deleteNetwork (app_name : String)
deriving DecidableEq, Repr

/-- DockerInfrastructure::stop_services, docker_infrastructure.rs lines
371-410: take the service snapshot from get_services; a missing app
returns the empty list at once with no runtime operation; otherwise
stop then delete every container carrying the app-name label for the
app, delete the app's network, and return the snapshot. -/
def stop_services (state : List Container) (app_name : String) : List DockerOp × List Service :=
  match mm_get_vec (get_services state) app_name with
  | none => ([], [])
  | some services =>
    let ids := (state.filter (fun c => decide (c.app_name_label = some app_name))).map Container.id
    (ids.flatMap (fun i => [DockerOp.stopContainer i, DockerOp.deleteContainer i])
       ++ [DockerOp.deleteNetwork app_name],
     services)

/-- shiplift errors as the From impl distinguishes them: a Fault carries
an HTTP status code and a message; the other variants only feed their
display text into the conversion. -/
inductive ShipLiftError
| fault (code : Nat) (message : String)
| connectionError (message : String)
| jsonError (message : String)
deriving DecidableEq, Repr

/-- Display text of a shiplift error (err.to_string() in the source). -/
def ShipLiftError.display : ShipLiftError → String
| .fault code message => toString code ++ ": " ++ message
| .connectionError message => message
| .jsonError message => message

/-- From<ShipLiftError> for DockerInfrastructureError,
docker_infrastructure.rs lines 505-521: a Fault with code 404 becomes
ImageNotFound carrying the fault's message; any other fault and any
other variant becomes UnexpectedError carrying the error's display
text. -/
def docker_error_from_shiplift (err : ShipLiftError) : DockerInfrastructureError :=
  match err with
  | ShipLiftError.fault code message =>
    if code = 404 then DockerInfrastructureError.imageNotFound message
    else DockerInfrastructureError.unexpectedError err.display
  | _ => DockerInfrastructureError.unexpectedError err.display

/-! Helper lemmas about the association-list multimap and the cache. -/

lemma mm_get_vec_nil {β : Type} (k : String) : mm_get_vec ([] : List (String × List β)) k = none := rfl

lemma mm_get_vec_cons {β : Type} (a : String) (vs : List β) (m : List (String × List β)) (k : String) :
    mm_get_vec ((a, vs) :: m) k = if a = k then some vs else mm_get_vec m k := by
  unfold mm_get_vec
  by_cases h : a = k <;> simp [List.find?, h]

lemma mm_get_vec_insert_self {β : Type} (m : List (String × List β)) (k : String) (v : β) :
    mm_get_vec (mm_insert m k v) k = some ((mm_get_vec m k).getD [] ++ [v]) := by
  induction m with
  | nil => simp [mm_insert, mm_get_vec_cons, mm_get_vec_nil]
  | cons p rest ih =>
    rcases p with ⟨a, vs⟩
    by_cases h : a = k
    · subst h
      simp [mm_insert, mm_get_vec_cons]
    · simp [mm_insert, h, mm_get_vec_cons, ih]

lemma mm_get_vec_insert_ne {β : Type} (m : List (String × List β)) (k k' : String) (v : β)
    (h : k' ≠ k) : mm_get_vec (mm_insert m k v) k' = mm_get_vec m k' := by
  have hk : ¬ k = k' := fun hh => h hh.symm
  induction m with
  | nil => simp [mm_insert, mm_get_vec_cons, mm_get_vec_nil, hk]
  | cons p rest ih =>
    rcases p with ⟨a, vs⟩
    by_cases hp : a = k
    · subst hp
      simp [mm_insert, mm_get_vec_cons, hk]
    · by_cases ha : a = k'
      · subst ha
        simp [mm_insert, hp, mm_get_vec_cons, h]
      · simp [mm_insert, hp, mm_get_vec_cons, ha, ih]

lemma mm_get_vec_eq_none_of_not_mem {β : Type} (m : List (String × List β)) (k : String)
    (h : k ∉ m.map Prod.fst) : mm_get_vec m k = none := by
  induction m with
  | nil => rfl
  | cons p rest ih =>
    rcases p with ⟨a, vs⟩
    simp only [List.map_cons, List.mem_cons, not_or] at h
    rw [mm_get_vec_cons]
    have : ¬ a = k := fun hh => h.1 hh.symm
    simp [this, ih h.2]

/-! Helper lemmas about the eviction pass. -/

lemma mem_keys_to_clear (apps : List (String × List Service)) (cache : Cache) (k : Key) :
    k ∈ keys_to_clear apps cache ↔ ∃ v, (k, v) ∈ cache ∧ stale apps k v = true := by
  unfold keys_to_clear
  constructor
  · intro h
    rcases List.mem_map.mp h with ⟨⟨k', v'⟩, he, hek⟩
    cases hek
    rcases List.mem_filter.mp he with ⟨hmem, hstale⟩
    exact ⟨v', hmem, hstale⟩
  · rintro ⟨v, hmem, hstale⟩
    exact List.mem_map.mpr ⟨(k, v), List.mem_filter.mpr ⟨hmem, hstale⟩, rfl⟩

lemma mem_clear_stale (apps : List (String × List Service)) (cache : Cache) (k : Key) (v : Value) :
    (k, v) ∈ clear_stale_web_host_meta apps cache ↔
      ((k, v) ∈ cache ∧ k ∉ keys_to_clear apps cache) := by
  unfold clear_stale_web_host_meta
  by_cases h : (keys_to_clear apps cache).isEmpty
  · have hks : keys_to_clear apps cache = [] := List.isEmpty_iff.mp h
    simp [h, hks]
  · simp [h, List.mem_filter]

lemma stale_iff (apps : List (String × List Service)) (k : Key) (v : Value) :
    stale apps k v = true ↔
      (mm_get_vec apps k.app_name = none
       ∨ ∃ services, mm_get_vec apps k.app_name = some services ∧
          (services.find? (fun s => decide (s.id = k.service_id)) = none
           ∨ ∃ s, services.find? (fun s => decide (s.id = k.service_id)) = some s ∧
               (s.status = ServiceStatus.paused ∨ s.started_at > v.timestamp))) := by
  rcases happ : mm_get_vec apps k.app_name with _ | services
  · simp only [stale, happ]
    constructor
    · intro _
      exact Or.inl trivial
    · intro _
      trivial
  · rcases hfind : services.find? (fun s => decide (s.id = k.service_id)) with _ | s
    · simp only [stale, happ, hfind]
      constructor
      · intro _
        exact Or.inr ⟨services, rfl, Or.inl hfind⟩
      · intro _
        trivial
    · simp only [stale, happ, hfind]
      constructor
      · intro h
        simp only [Bool.or_eq_true, decide_eq_true_eq] at h
        rcases h with h' | h'
        · exact Or.inr ⟨services, rfl, Or.inr ⟨s, hfind, Or.inl h'⟩⟩
        · exact Or.inr ⟨services, rfl, Or.inr ⟨s, hfind, Or.inr h'⟩⟩
      · rintro (h | ⟨services', hs', hrest⟩)
        · exact absurd h (by simp)
        · obtain rfl : services' = services := by
            injection hs' with hh
            exact hh.symm
          rcases hrest with hn | ⟨s', hs'', hcond⟩
          · rw [hfind] at hn
            exact absurd hn (by simp)
          · rw [hfind] at hs''
            obtain rfl : s' = s := by
              injection hs'' with hh
              exact hh.symm
            simp only [Bool.or_eq_true, decide_eq_true_eq]
            exact hcond

/-- C1: one eviction pass keeps a cache binding (key, value) exactly
when the binding was there before and no value stored under the key is
stale for the snapshot: a binding is removed iff some value under its
key has no app in the snapshot with key.app_name, or no service of that
app with id key.service_id, or the found service is Paused or has
started_at strictly greater than that value's timestamp; when a key is
evicted, all values under it go (the staleness of any one value under
the key removes every binding of the key). -/
theorem clear_stale_evicts_iff (apps : List (String × List Service)) (cache : Cache)
    (k : Key) (v : Value) :
    (k, v) ∈ clear_stale_web_host_meta apps cache ↔
      ((k, v) ∈ cache ∧ ∀ v', (k, v') ∈ cache →
        ¬ (mm_get_vec apps k.app_name = none
           ∨ ∃ services, mm_get_vec apps k.app_name = some services ∧
              (services.find? (fun s => decide (s.id = k.service_id)) = none
               ∨ ∃ s, services.find? (fun s => decide (s.id = k.service_id)) = some s ∧
                   (s.status = ServiceStatus.paused ∨ s.started_at > v'.timestamp)))) := by
  rw [mem_clear_stale, mem_keys_to_clear]
  constructor
  · rintro ⟨hmem, hnot⟩
    refine ⟨hmem, fun v' hv' hcond => hnot ⟨v', hv', (stale_iff apps k v').mpr hcond⟩⟩
  · rintro ⟨hmem, hall⟩
    refine ⟨hmem, ?_⟩
    rintro ⟨v', hv', hstale⟩
    exact hall v' hv' ((stale_iff apps k v').mp hstale)

/-! Helper lemmas about one crawler cycle. -/

lemma crawl_insert_fold (rs : List (Key × Service × WebHostMeta)) (c : Cache) (now : Int) :
    rs.foldl (fun c r => if r.2.2.is_valid then c ++ [(r.1, Value.mk now r.2.2)] else c) c
      = c ++ (rs.filter (fun r => r.2.2.is_valid)).map (fun r => (r.1, Value.mk now r.2.2)) := by
  induction rs generalizing c with
  | nil => simp
  | cons r rest ih =>
    by_cases h : r.2.2.is_valid
    · simp [List.foldl_cons, h, ih, List.filter_cons]
    · simp [List.foldl_cons, h, ih, List.filter_cons]

lemma crawl_final_eq (apps : List (String × List Service)) (cache : Cache)
    (probe : Key → Service → WebHostMeta) (now : Int) :
    (crawl apps cache probe now).2
      = clear_stale_web_host_meta apps cache
        ++ (((crawl_targets apps (clear_stale_web_host_meta apps cache)).map
              (fun e => (e.1, e.2, probe e.1 e.2))).filter (fun r => r.2.2.is_valid)).map
            (fun r => (r.1, Value.mk now r.2.2)) := by
  simp only [crawl]
  by_cases h : (crawl_targets apps (clear_stale_web_host_meta apps cache)).isEmpty
  · have ht : crawl_targets apps (clear_stale_web_host_meta apps cache) = [] :=
      List.isEmpty_iff.mp h
    simp [h, ht]
  · simp [h, crawl_insert_fold]

lemma crawl_pubs_eq (apps : List (String × List Service)) (cache : Cache)
    (probe : Key → Service → WebHostMeta) (now : Int) :
    (crawl apps cache probe now).1
      = (if (keys_to_clear apps cache).isEmpty then []
         else [clear_stale_web_host_meta apps cache])
        ++ (if (crawl_targets apps (clear_stale_web_host_meta apps cache)).isEmpty then []
            else [(crawl apps cache probe now).2]) := by
  simp only [crawl]
  by_cases ht : (crawl_targets apps (clear_stale_web_host_meta apps cache)).isEmpty
  · by_cases hk : (keys_to_clear apps cache).isEmpty <;> simp [ht, hk]
  · by_cases hk : (keys_to_clear apps cache).isEmpty <;> simp [ht, hk]

lemma crawl_pubs_cases (apps : List (String × List Service)) (cache : Cache)
    (probe : Key → Service → WebHostMeta) (now : Int) (s : Cache)
    (h : s ∈ (crawl apps cache probe now).1) :
    s = clear_stale_web_host_meta apps cache ∨ s = (crawl apps cache probe now).2 := by
  rw [crawl_pubs_eq] at h
  rcases List.mem_append.mp h with h' | h'
  · by_cases hk : (keys_to_clear apps cache).isEmpty
    · simp [hk] at h'
    · simp [hk] at h'
      exact Or.inl h'
  · by_cases ht : (crawl_targets apps (clear_stale_web_host_meta apps cache)).isEmpty
    · simp [ht] at h'
    · simp [ht] at h'
      exact Or.inr h'

lemma clear_stale_subset (apps : List (String × List Service)) (cache : Cache)
    (e : Key × Value) (h : e ∈ clear_stale_web_host_meta apps cache) : e ∈ cache := by
  rcases e with ⟨k, v⟩
  exact ((mem_clear_stale apps cache k v).mp h).1

lemma crawl_targets_not_cached (apps : List (String × List Service)) (c : Cache)
    (e : Key × Service) (h : e ∈ crawl_targets apps c) :
    cache_contains_key c e.1 = false := by
  have := (List.mem_filter.mp h).2
  simpa using this

/-- C3 (amended): the cycle's evictions and insertions are not made
visible together: the eviction pass publishes the post-eviction state
by itself (exactly when at least one key is cleared), and the cycle's
insertions become visible together only in a second publish at the end
of the cycle (exactly when there was at least one probe target), so
every reader-observable snapshot of a cycle is either the post-eviction
pre-insertion state or the cycle's final state. -/
theorem crawl_publish_sequence (apps : List (String × List Service)) (cache : Cache)
    (probe : Key → Service → WebHostMeta) (now : Int) :
    (crawl apps cache probe now).1
      = (if (keys_to_clear apps cache).isEmpty then []
         else [clear_stale_web_host_meta apps cache])
        ++ (if (crawl_targets apps (clear_stale_web_host_meta apps cache)).isEmpty then []
            else [(crawl apps cache probe now).2]) :=
  crawl_pubs_eq apps cache probe now

/-- C3 counterexample: a concrete cycle (one app with one running
service restarted after its cache entry's timestamp, and a probe that
parses) publishes an intermediate snapshot that contains the cycle's
eviction but not its insertion, so a reader does not always observe the
pre-cycle or the post-cycle state of the whole batch. -/
theorem crawl_publish_not_atomic_counterexample :
    ¬ (∀ s ∈ (crawl
          [("demo", [⟨"demo", "web", "1", ContainerType.inst, ServiceStatus.running, 20, none, none⟩])]
          [(⟨"demo", "1"⟩, ⟨10, WebHostMeta.parsed "m" none⟩)]
          (fun _ _ => WebHostMeta.parsed "m2" none) 100).1,
        s = [(⟨"demo", "1"⟩, ⟨10, WebHostMeta.parsed "m" none⟩)]
        ∨ s = (crawl
          [("demo", [⟨"demo", "web", "1", ContainerType.inst, ServiceStatus.running, 20, none, none⟩])]
          [(⟨"demo", "1"⟩, ⟨10, WebHostMeta.parsed "m" none⟩)]
          (fun _ _ => WebHostMeta.parsed "m2" none) 100).2) := by
  decide

/-- C4: when every stored value of the cache carries a valid meta, each
cache state a reader can observe during and after one crawler cycle
still carries only valid metas: the insertion loop skips exactly the
probe results whose meta fails is_valid(), so empty and invalid metas
never enter the cache. -/
theorem crawl_only_valid_meta_stored (apps : List (String × List Service)) (cache : Cache)
    (probe : Key → Service → WebHostMeta) (now : Int)
    (hvalid : ∀ e ∈ cache, (e : Key × Value).2.web_host_meta.is_valid = true) :
    (∀ s ∈ (crawl apps cache probe now).1, ∀ e ∈ s, (e : Key × Value).2.web_host_meta.is_valid = true)
    ∧ (∀ e ∈ (crawl apps cache probe now).2, (e : Key × Value).2.web_host_meta.is_valid = true) := by
  have h1 : ∀ e ∈ clear_stale_web_host_meta apps cache,
      (e : Key × Value).2.web_host_meta.is_valid = true :=
    fun e he => hvalid e (clear_stale_subset apps cache e he)
  have h2 : ∀ e ∈ (crawl apps cache probe now).2,
      (e : Key × Value).2.web_host_meta.is_valid = true := by
    intro e he
    rw [crawl_final_eq] at he
    rcases List.mem_append.mp he with he' | he'
    · exact h1 e he'
    · rcases List.mem_map.mp he' with ⟨r, hr, hre⟩
      have : r.2.2.is_valid = true := (List.mem_filter.mp hr).2
      rw [← hre]
      exact this
  refine ⟨fun s hs => ?_, h2⟩
  rcases crawl_pubs_cases apps cache probe now s hs with h | h
  · rw [h]; exact h1
  · rw [h]; exact h2

/-- C4 witness: the cycle of the counterexample-free demo instance (an
initially valid cache entry, a second service probed successfully)
keeps every observable state valid. -/
theorem crawl_only_valid_meta_stored_witness :
    (∀ s ∈ (crawl
        [("demo", [⟨"demo", "web", "1", ContainerType.inst, ServiceStatus.running, 5, none, none⟩])]
        [(⟨"demo", "1"⟩, ⟨10, WebHostMeta.parsed "m" none⟩)]
        (fun _ _ => WebHostMeta.invalid) 100).1,
      ∀ e ∈ s, (e : Key × Value).2.web_host_meta.is_valid = true)
    ∧ (∀ e ∈ (crawl
        [("demo", [⟨"demo", "web", "1", ContainerType.inst, ServiceStatus.running, 5, none, none⟩])]
        [(⟨"demo", "1"⟩, ⟨10, WebHostMeta.parsed "m" none⟩)]
        (fun _ _ => WebHostMeta.invalid) 100).2,
      (e : Key × Value).2.web_host_meta.is_valid = true) :=
  crawl_only_valid_meta_stored
    [("demo", [⟨"demo", "web", "1", ContainerType.inst, ServiceStatus.running, 5, none, none⟩])]
    [(⟨"demo", "1"⟩, ⟨10, WebHostMeta.parsed "m" none⟩)]
    (fun _ _ => WebHostMeta.invalid) 100 (by decide)

/-- C6 (amended): on an empty inventory the cycle performs no
insertion and ends with an empty cache, but the final publish step does
not occur: the only publish of such a cycle is the eviction pass's own,
which happens exactly when the cache had at least one (necessarily
stale) entry; with an empty cache nothing is published at all. -/
theorem crawl_empty_inventory (cache : Cache) (probe : Key → Service → WebHostMeta) (now : Int) :
    crawl [] cache probe now = ((if cache.isEmpty then [] else [([] : Cache)]), ([] : Cache)) := by
  have hstale : ∀ e ∈ cache, stale [] e.1 e.2 = true := by
    intro e _
    simp [stale, mm_get_vec_nil]
  have hks : keys_to_clear [] cache = cache.map Prod.fst := by
    unfold keys_to_clear
    rw [List.filter_eq_self.mpr hstale]
  have hclear : clear_stale_web_host_meta [] cache = [] := by
    unfold clear_stale_web_host_meta
    rw [hks]
    by_cases h : (cache.map Prod.fst).isEmpty
    · have := List.isEmpty_iff.mp h
      cases cache with
      | nil => simp
      | cons e rest => simp at this
    · rw [if_neg h]
      apply List.filter_eq_nil_iff.mpr
      intro e he
      simp only [decide_eq_true_eq, Decidable.not_not]
      exact List.mem_map.mpr ⟨e, he, rfl⟩
  have htargets : crawl_targets [] (clear_stale_web_host_meta [] cache) = [] := by
    simp [crawl_targets]
  simp only [crawl, hks, hclear, htargets, List.isEmpty_nil, if_true]
  cases cache with
  | nil => simp [crawl_targets]
  | cons e rest => simp [crawl_targets]

/-- C6 counterexample: with an empty inventory and an empty cache the
cycle takes the early return on an empty target set before any refresh,
so no snapshot at all is published in that cycle (the publish list is
empty and the cache stays empty), contradicting that the publish step
still occurs. -/
theorem crawl_empty_inventory_no_publish_counterexample :
    crawl [] [] (fun _ _ => WebHostMeta.empty) 0 = ([], []) := by
  decide

/-- C10: a key still present in the cache after the eviction pass is
never overwritten by the cycle: the probe targets are exactly the
not-yet-cached keys, so the values stored under any cached key are the
same before and after the insertion phase. -/
theorem crawl_never_overwrites (apps : List (String × List Service)) (cache : Cache)
    (probe : Key → Service → WebHostMeta) (now : Int) (k : Key)
    (h : cache_contains_key (clear_stale_web_host_meta apps cache) k = true) :
    ((crawl apps cache probe now).2).filter (fun e => decide (e.1 = k))
      = (clear_stale_web_host_meta apps cache).filter (fun e => decide (e.1 = k)) := by
  rw [crawl_final_eq, List.filter_append]
  have hnil : ((((crawl_targets apps (clear_stale_web_host_meta apps cache)).map
        (fun e => (e.1, e.2, probe e.1 e.2))).filter (fun r => r.2.2.is_valid)).map
          (fun r => (r.1, Value.mk now r.2.2))).filter (fun e => decide (e.1 = k)) = [] := by
    apply List.filter_eq_nil_iff.mpr
    intro e he
    rcases List.mem_map.mp he with ⟨r, hr, hre⟩
    rcases List.mem_map.mp (List.mem_of_mem_filter hr) with ⟨t, ht, htr⟩
    have hnc := crawl_targets_not_cached apps (clear_stale_web_host_meta apps cache) t ht
    simp only [decide_eq_true_eq]
    intro hek
    have : t.1 = k := by
      rw [← htr] at hre
      rw [← hre] at hek
      exact hek
    rw [this, h] at hnc
    exact Bool.true_eq_false.mp hnc
  rw [hnil, List.append_nil]

/-- C10 witness: in the demo cycle (one cached running service, one new
service probed) the cached key's values are untouched by the cycle. -/
theorem crawl_never_overwrites_witness :
    ((crawl
        [("demo", [⟨"demo", "web", "1", ContainerType.inst, ServiceStatus.running, 5, none, none⟩,
                   ⟨"demo", "db", "2", ContainerType.inst, ServiceStatus.running, 5, none, none⟩])]
        [(⟨"demo", "1"⟩, ⟨10, WebHostMeta.parsed "m" none⟩)]
        (fun _ _ => WebHostMeta.parsed "m2" none) 100).2).filter
          (fun e => decide (e.1 = (⟨"demo", "1"⟩ : Key)))
      = (clear_stale_web_host_meta
          [("demo", [⟨"demo", "web", "1", ContainerType.inst, ServiceStatus.running, 5, none, none⟩,
                     ⟨"demo", "db", "2", ContainerType.inst, ServiceStatus.running, 5, none, none⟩])]
          [(⟨"demo", "1"⟩, ⟨10, WebHostMeta.parsed "m" none⟩)]).filter
          (fun e => decide (e.1 = (⟨"demo", "1"⟩ : Key))) :=
  crawl_never_overwrites
    [("demo", [⟨"demo", "web", "1", ContainerType.inst, ServiceStatus.running, 5, none, none⟩,
               ⟨"demo", "db", "2", ContainerType.inst, ServiceStatus.running, 5, none, none⟩])]
    [(⟨"demo", "1"⟩, ⟨10, WebHostMeta.parsed "m" none⟩)]
    (fun _ _ => WebHostMeta.parsed "m2" none) 100 ⟨"demo", "1"⟩ (by decide)

/-- C2: on a transport error the classifier returns the empty meta
exactly when the service uptime now - started_at is at least 5 minutes
and the process uptime now - since_timestamp is at least 1 minute, and
the invalid meta exactly otherwise; in particular a process uptime
below 1 minute makes every transport failure classify as invalid, no
matter the service uptime. -/
theorem resolve_transport_error_classification (now started_at since_timestamp : Int) :
    (resolve_web_host_meta ProbeResponse.err now started_at (now - since_timestamp)
        = WebHostMeta.empty
      ↔ (5 * 60 ≤ now - started_at ∧ 1 * 60 ≤ now - since_timestamp))
    ∧ (resolve_web_host_meta ProbeResponse.err now started_at (now - since_timestamp)
        = WebHostMeta.invalid
      ↔ ¬ (5 * 60 ≤ now - started_at ∧ 1 * 60 ≤ now - since_timestamp)) := by
  unfold resolve_web_host_meta
  by_cases h : 5 * 60 ≤ now - started_at ∧ 1 * 60 ≤ now - since_timestamp
  · simp [h]
  · simp [h]

/-! Helper lemmas for the decorate (update_meta_data) read path. -/

lemma mm_fold_insert_get_some {β : Type} (a : String) (g : β → β) (svcs : List β)
    (acc : List (String × List β)) (vs : List β) (h : mm_get_vec acc a = some vs) :
    mm_get_vec (svcs.foldl (fun m s => mm_insert m a (g s)) acc) a
      = some (vs ++ svcs.map g) := by
  induction svcs generalizing acc vs with
  | nil => simpa using h
  | cons s rest ih =>
    have hstep : mm_get_vec (mm_insert acc a (g s)) a = some (vs ++ [g s]) := by
      rw [mm_get_vec_insert_self, h]
      rfl
    rw [List.foldl_cons]
    rw [ih (mm_insert acc a (g s)) (vs ++ [g s]) hstep]
    simp

lemma mm_fold_insert_get_none {β : Type} (a : String) (g : β → β) (s : β) (rest : List β)
    (acc : List (String × List β)) (h : mm_get_vec acc a = none) :
    mm_get_vec ((s :: rest).foldl (fun m s => mm_insert m a (g s)) acc) a
      = some ((s :: rest).map g) := by
  have hstep : mm_get_vec (mm_insert acc a (g s)) a = some [g s] := by
    rw [mm_get_vec_insert_self, h]
    rfl
  rw [List.foldl_cons]
  rw [mm_fold_insert_get_some a g rest (mm_insert acc a (g s)) [g s] hstep]
  simp

lemma mm_fold_insert_get_other {β : Type} (a a' : String) (g : β → β) (svcs : List β)
    (acc : List (String × List β)) (h : a' ≠ a) :
    mm_get_vec (svcs.foldl (fun m s => mm_insert m a (g s)) acc) a' = mm_get_vec acc a' := by
  induction svcs generalizing acc with
  | nil => rfl
  | cons s rest ih =>
    rw [List.foldl_cons, ih (mm_insert acc a (g s)), mm_get_vec_insert_ne _ _ _ _ h]

lemma update_meta_data_fold_get (cache : Cache) (request_info : RequestInfo)
    (m : List (String × List Service)) (acc : List (String × List Service))
    (hnd : (m.map Prod.fst).Nodup) (hne : ∀ p ∈ m, p.2 ≠ ([] : List Service))
    (hacc : ∀ p ∈ m, mm_get_vec acc p.1 = none) (a : String) :
    mm_get_vec
        (m.foldl
          (fun acc p =>
            p.2.foldl (fun acc2 s => mm_insert acc2 p.1 (enrich_service cache request_info p.1 s)) acc)
          acc) a
      = match mm_get_vec m a with
        | some svcs => some (svcs.map (enrich_service cache request_info a))
        | none => mm_get_vec acc a := by
  induction m generalizing acc with
  | nil => rfl
  | cons p rest ih =>
    rcases p with ⟨b, svcs⟩
    rcases svcs with _ | ⟨s0, svcs'⟩
    · exact absurd rfl (hne (b, []) (List.mem_cons_self _ _))
    rw [List.foldl_cons]
    set acc' := (s0 :: svcs').foldl
      (fun acc2 s => mm_insert acc2 b (enrich_service cache request_info b s)) acc with hacc'
    have hb : mm_get_vec acc' b = some ((s0 :: svcs').map (enrich_service cache request_info b)) := by
      rw [hacc']
      exact mm_fold_insert_get_none b _ s0 svcs' acc (hacc (b, s0 :: svcs') (List.mem_cons_self _ _))
    have hother : ∀ x, x ≠ b → mm_get_vec acc' x = mm_get_vec acc x := by
      intro x hx
      rw [hacc']
      exact mm_fold_insert_get_other b x _ (s0 :: svcs') acc hx
    rw [List.map_cons] at hnd
    have hnd' : (rest.map Prod.fst).Nodup := (List.nodup_cons.mp hnd).2
    have hbnotin : b ∉ rest.map Prod.fst := (List.nodup_cons.mp hnd).1
    have hne' : ∀ p ∈ rest, p.2 ≠ ([] : List Service) :=
      fun p hp => hne p (List.mem_cons_of_mem _ hp)
    have hacc2 : ∀ p ∈ rest, mm_get_vec acc' p.1 = none := by
      intro p hp
      have hpb : p.1 ≠ b := by
        intro hh
        exact hbnotin (hh ▸ List.mem_map.mpr ⟨p, hp, rfl⟩)
      rw [hother p.1 hpb]
      exact hacc p (List.mem_cons_of_mem _ hp)
    rw [ih acc' hnd' hne' hacc2]
    by_cases hab : b = a
    · subst hab
      have hrest : mm_get_vec rest b = none := mm_get_vec_eq_none_of_not_mem rest b hbnotin
      rw [hrest, mm_get_vec_cons]
      simp [hb]
    · rw [mm_get_vec_cons, if_neg hab]
      cases hrest : mm_get_vec rest a with
      | some svcs2 => rfl
      | none => exact hother a (fun hh => hab hh.symm)

lemma update_meta_data_get (cache : Cache) (request_info : RequestInfo)
    (m : List (String × List Service))
    (hnd : (m.map Prod.fst).Nodup) (hne : ∀ p ∈ m, p.2 ≠ ([] : List Service)) (a : String) :
    mm_get_vec (update_meta_data cache m request_info) a
      = (mm_get_vec m a).map (fun svcs => svcs.map (enrich_service cache request_info a)) := by
  unfold update_meta_data
  rw [update_meta_data_fold_get cache request_info m [] hnd hne (fun _ _ => rfl) a]
  cases h : mm_get_vec m a <;> rfl

/-- C5: under a fixed cache, every service that decorate
(update_meta_data) emits carries base_url = request_info.base_url; a
service whose (map key, id) pair is in the cache additionally carries
the cached meta with the base url attached, and a service with no cache
entry carries no meta (the builder keeps the input's meta field, which
is none for every service the inventory produces). The first conjunct
places the enriched services in the output under the key they were read
from. -/
theorem update_meta_data_decorates (cache : Cache) (request_info : RequestInfo)
    (m : List (String × List Service))
    (hnd : (m.map Prod.fst).Nodup) (hne : ∀ p ∈ m, p.2 ≠ ([] : List Service))
    (a : String) (s : Service) (svcs : List Service)
    (hm : mm_get_vec m a = some svcs) (_hs : s ∈ svcs) (hmeta : s.web_host_meta = none) :
    mm_get_vec (update_meta_data cache m request_info) a
        = some (svcs.map (enrich_service cache request_info a))
      ∧ (enrich_service cache request_info a s).base_url = some request_info.base_url
      ∧ (∀ v, cache_get_one cache ⟨a, s.id⟩ = some v →
          (enrich_service cache request_info a s).web_host_meta
            = some (v.web_host_meta.with_base_url request_info.base_url))
      ∧ (cache_get_one cache ⟨a, s.id⟩ = none →
          (enrich_service cache request_info a s).web_host_meta = none) := by
  refine ⟨?_, ?_, ?_, ?_⟩
  · rw [update_meta_data_get cache request_info m hnd hne a, hm]
    rfl
  · simp only [enrich_service]
    cases h : cache_get_one cache ⟨a, s.id⟩
    · rfl
    · rfl
  · intro v hv
    simp only [enrich_service]
    rw [hv]
  · intro hv
    simp only [enrich_service]
    rw [hv]
    exact hmeta

/-- C5 witness: one app "demo" with one service of id "1" whose key is
cached; the decorated output carries the base url and the cached meta. -/
theorem update_meta_data_decorates_witness :
    mm_get_vec
        (update_meta_data
          [(⟨"demo", "1"⟩, ⟨10, WebHostMeta.parsed "m" none⟩)]
          [("demo", [⟨"demo", "web", "1", ContainerType.inst, ServiceStatus.running, 5, none, none⟩])]
          ⟨"http://u"⟩) "demo"
        = some ([⟨"demo", "web", "1", ContainerType.inst, ServiceStatus.running, 5, none, none⟩].map
            (enrich_service [(⟨"demo", "1"⟩, ⟨10, WebHostMeta.parsed "m" none⟩)] ⟨"http://u"⟩ "demo"))
      ∧ (enrich_service [(⟨"demo", "1"⟩, ⟨10, WebHostMeta.parsed "m" none⟩)] ⟨"http://u"⟩ "demo"
          ⟨"demo", "web", "1", ContainerType.inst, ServiceStatus.running, 5, none, none⟩).base_url
        = some (⟨"http://u"⟩ : RequestInfo).base_url
      ∧ (∀ v, cache_get_one [(⟨"demo", "1"⟩, ⟨10, WebHostMeta.parsed "m" none⟩)]
            ⟨"demo", (⟨"demo", "web", "1", ContainerType.inst, ServiceStatus.running, 5, none, none⟩ : Service).id⟩ = some v →
          (enrich_service [(⟨"demo", "1"⟩, ⟨10, WebHostMeta.parsed "m" none⟩)] ⟨"http://u"⟩ "demo"
            ⟨"demo", "web", "1", ContainerType.inst, ServiceStatus.running, 5, none, none⟩).web_host_meta
            = some (v.web_host_meta.with_base_url (⟨"http://u"⟩ : RequestInfo).base_url))
      ∧ (cache_get_one [(⟨"demo", "1"⟩, ⟨10, WebHostMeta.parsed "m" none⟩)]
            ⟨"demo", (⟨"demo", "web", "1", ContainerType.inst, ServiceStatus.running, 5, none, none⟩ : Service).id⟩ = none →
          (enrich_service [(⟨"demo", "1"⟩, ⟨10, WebHostMeta.parsed "m" none⟩)] ⟨"http://u"⟩ "demo"
            ⟨"demo", "web", "1", ContainerType.inst, ServiceStatus.running, 5, none, none⟩).web_host_meta = none) :=
  update_meta_data_decorates
    [(⟨"demo", "1"⟩, ⟨10, WebHostMeta.parsed "m" none⟩)] ⟨"http://u"⟩
    [("demo", [⟨"demo", "web", "1", ContainerType.inst, ServiceStatus.running, 5, none, none⟩])]
    (by decide) (by decide) "demo"
    ⟨"demo", "web", "1", ContainerType.inst, ServiceStatus.running, 5, none, none⟩
    [⟨"demo", "web", "1", ContainerType.inst, ServiceStatus.running, 5, none, none⟩]
    (by decide) (by decide) (by decide)

/-- C9: decorate (update_meta_data) groups its output by the map key it
read each (app_name, service) pair from, not by the service's own
app_name field: the output under any key consists exactly of the
enriched services of the input under that key, and enriching preserves
the service's own app_name field verbatim, so a pair whose two names
differ still lands under the map key. -/
theorem update_meta_data_groups_by_map_key (cache : Cache) (request_info : RequestInfo)
    (m : List (String × List Service))
    (hnd : (m.map Prod.fst).Nodup) (hne : ∀ p ∈ m, p.2 ≠ ([] : List Service)) (a : String) :
    mm_get_vec (update_meta_data cache m request_info) a
        = (mm_get_vec m a).map (fun svcs => svcs.map (enrich_service cache request_info a))
      ∧ ∀ s : Service, (enrich_service cache request_info a s).app_name = s.app_name := by
  refine ⟨update_meta_data_get cache request_info m hnd hne a, fun s => ?_⟩
  simp only [enrich_service]
  cases h : cache_get_one cache ⟨a, s.id⟩
  · rfl
  · rfl

/-- C9 witness: a service whose own app_name field is "other" listed
under the map key "demo" is emitted under "demo" with its own app_name
field kept. -/
theorem update_meta_data_groups_by_map_key_witness :
    mm_get_vec
        (update_meta_data ([] : Cache)
          [("demo", [⟨"other", "web", "1", ContainerType.inst, ServiceStatus.running, 5, none, none⟩])]
          ⟨"http://u"⟩) "demo"
        = (mm_get_vec
            [("demo", [⟨"other", "web", "1", ContainerType.inst, ServiceStatus.running, 5, none, none⟩])]
            "demo").map
            (fun svcs => svcs.map (enrich_service ([] : Cache) ⟨"http://u"⟩ "demo"))
      ∧ ∀ s : Service, (enrich_service ([] : Cache) ⟨"http://u"⟩ "demo" s).app_name = s.app_name :=
  update_meta_data_groups_by_map_key ([] : Cache) ⟨"http://u"⟩
    [("demo", [⟨"other", "web", "1", ContainerType.inst, ServiceStatus.running, 5, none, none⟩])]
    (by decide) (by decide) "demo"

/-! Helper lemma for stop_services. -/

lemma get_services_fold_none (state : List Container) (acc : List (String × List Service))
    (app_name : String) (h : ∀ c ∈ state, c.app_name_label ≠ some app_name)
    (hacc : mm_get_vec acc app_name = none) :
    mm_get_vec
        (state.foldl
          (fun apps c =>
            match c.app_name_label with
            | none => apps
            | some an =>
              match service_try_from c with
              | Except.ok service => mm_insert apps an service
              | Except.error _ => apps)
          acc) app_name = none := by
  induction state generalizing acc with
  | nil => exact hacc
  | cons c rest ih =>
    rw [List.foldl_cons]
    refine ih _ (fun c' hc' => h c' (List.mem_cons_of_mem _ hc')) ?_
    rcases hl : c.app_name_label with _ | an
    · simpa using hacc
    · have han : an ≠ app_name := by
        intro hh
        exact h c (List.mem_cons_self _ _) (by rw [hl, hh])
      cases htf : service_try_from c with
      | ok service =>
        simp only [htf]
        rw [mm_get_vec_insert_ne _ _ _ _ (fun hh => han hh.symm)]
        exact hacc
      | error e =>
        simpa [htf] using hacc

lemma get_services_none (state : List Container) (app_name : String)
    (h : ∀ c ∈ state, c.app_name_label ≠ some app_name) :
    mm_get_vec (get_services state) app_name = none :=
  get_services_fold_none state [] app_name h rfl

/-- C7: stop_services on an app name carried by no container's app-name
label returns the empty service list and performs no stop, delete or
network operation; in particular a second call right after a completed
stop_services of the same app (which removed every such container) is a
no-op returning the empty list. -/
theorem stop_services_missing_app (state : List Container) (app_name : String)
    (h : ∀ c ∈ state, c.app_name_label ≠ some app_name) :
    stop_services state app_name = ([], []) := by
  unfold stop_services
  rw [get_services_none state app_name h]

/-- C7 witness: stopping app "demo" in a runtime that only has a
container of app "other" performs nothing and returns the empty list. -/
theorem stop_services_missing_app_witness :
    stop_services [⟨"c1", some "other", some "db", none⟩] "demo" = ([], []) :=
  stop_services_missing_app [⟨"c1", some "other", some "db", none⟩] "demo" (by decide)

/-- C8: converting a shiplift error yields ImageNotFound with the
fault's message exactly for a fault of HTTP status 404, and
UnexpectedError (the orchestrator's UnexpectedRuntimeError) carrying
the error's display message for every other fault and every non-fault
variant; no other error variant can result. -/
theorem shiplift_error_conversion (e : ShipLiftError) :
    (∃ msg, e = ShipLiftError.fault 404 msg
        ∧ docker_error_from_shiplift e = DockerInfrastructureError.imageNotFound msg)
    ∨ ((∀ msg, e ≠ ShipLiftError.fault 404 msg)
        ∧ docker_error_from_shiplift e = DockerInfrastructureError.unexpectedError e.display) := by
  cases e with
  | fault code message =>
    by_cases h : code = 404
    · subst h
      exact Or.inl ⟨message, rfl, rfl⟩
    · refine Or.inr ⟨?_, ?_⟩
      · intro msg hc
        injection hc with h1 _
        exact h h1
      · simp [docker_error_from_shiplift, h]
  | connectionError m =>
    exact Or.inr ⟨fun msg hc => ShipLiftError.noConfusion hc, rfl⟩
  | jsonError m =>
    exact Or.inr ⟨fun msg hc => ShipLiftError.noConfusion hc, rfl⟩

end PREvant
